import Mathlib

/-!
Verification of the synthetic-traffic core of the booksim2 interconnection
network simulator, as sliced in `src/synthetictrafficmanager.cpp` and
`src/buffer.cpp`.

The C++ classes are shallowly embedded: the mutable member arrays of
`SyntheticTrafficManager` become function-valued fields of a `State`
structure, every mutating member function becomes a state transformer, and
collaborators that live outside the two source files (the base
`TrafficManager`, the `Stats` collectors, `_GeneratePacket`, `_IssuePacket`,
the `VC` class and the random-number source) are modelled from the spec, as
noted on each definition.  C++ `int` is embedded as `Int` (no arithmetic here
approaches overflow), vectors indexed by class or node as total functions or
`List`s with explicit bounds hypotheses mirroring the source's assertions.
-/

namespace BookSim

/-- A flit record, the fields of the external `Flit` type that
`synthetictrafficmanager.cpp` reads: class, source, destination, transaction
id, injection time, arrival time, and the record/watch flags. -/
structure Flit where
  cl : Nat
  src : Nat
  dest : Nat
  tid : Nat
  ttime : Int
  atime : Int
  record : Bool
  watch : Bool
deriving DecidableEq, Repr

/-- Simulation phases of the traffic manager (`_sim_state`). -/
inductive SimState where
  | warming_up
  | running
  | draining
  | done
deriving DecidableEq, Repr

/-- Configuration derived in the `SyntheticTrafficManager` constructor:
class/node counts, the per-class reply-class and request-class maps, the
per-class packet-size distributions and the per-class measurement flags. -/
structure Config where
  classes : Nat
  nodes : Nat
  reply_class : List Int
  request_class : List Int
  packet_size : List (List Int)
  packet_size_rate : List (List Int)
  packet_size_max_val : List Int
  measure_stats : List Bool

/-- Modelled from the spec: a packet synthesized by the base engine's
`_GeneratePacket(source, dest, size, cl, time, tid, ttime)`, which is not in
the source slice; the spec describes the arguments as the packet's source,
destination, size, class, creation time, transaction id and original
injection time. -/
structure GenPacket where
  src : Nat
  dest : Nat
  size : Int
  cl : Nat
  ctime : Int
  tid : Nat
  ttime : Int
deriving DecidableEq, Repr

/-- Point update of a doubly indexed function (a `vector<vector<...>>` cell
assignment). -/
def upd2 {α : Type} (f : Nat → Nat → α) (i j : Nat) (v : α) : Nat → Nat → α :=
  fun i' j' => if i' = i ∧ j' = j then v else f i' j'

/-- Mutable state of `SyntheticTrafficManager` (together with the base-class
members it reads): current cycle `_time`, phase `_sim_state`, drain deadline
`_drain_time`, the per-(class,source) injection-queue timers `_qtime` and
drain flags `_qdrained`, the outstanding-transaction counters
`_requests_outstanding`, the packet sequence numbers `_packet_seq_no`, the
latency collectors (`Stats` is outside the slice; modelled from the spec as
the list of samples added so far), the emptiness of the per-(class,source)
`_partial_packets` lists, and the packets handed to `_GeneratePacket`. -/
structure State where
  time : Int
  sim_state : SimState
  drain_time : Int
  qtime : Nat → Nat → Int
  qdrained : Nat → Nat → Bool
  requests_outstanding : Nat → Nat → Int
  packet_seq_no : Nat → Nat → Int
  tlat_stats : Nat → List Int
  pair_tlat : Nat → Nat → List Int
  pendingEmpty : Nat → Nat → Bool
  generated : List GenPacket

/-- Embedding of `SyntheticTrafficManager::_RetirePacket(head, tail, dest)`.
`sz` is the value returned by the `_GetNextPacketSize(reply_class)` call in
the request branch (that call draws from the external random source, so the
sampled size enters as a parameter).  `Stats::AddSample` (outside the slice)
is modelled from the spec as appending the sample to the collector's list;
`_GeneratePacket` (outside the slice) is modelled from the spec as recording
a `GenPacket` with the documented field meanings. -/
def retirePacket (cfg : Config) (st : State) (head tail : Flit) (dest : Nat)
    (sz : Int) : State :=
  let reply_class := cfg.reply_class.getD tail.cl (-1)
  if reply_class < 0 then
    let request_class := cfg.request_class.getD tail.cl (-1)
    let st1 :=
      if request_class < 0 then
        { st with
          requests_outstanding :=
            upd2 st.requests_outstanding tail.cl tail.src
              (st.requests_outstanding tail.cl tail.src - 1) }
      else
        { st with
          requests_outstanding :=
            upd2 st.requests_outstanding request_class.toNat dest
              (st.requests_outstanding request_class.toNat dest - 1) }
    if st.sim_state = SimState.warming_up ∨ tail.record = true then
      let cl := if request_class < 0 then tail.cl else request_class.toNat
      { st1 with
        tlat_stats :=
          fun c =>
            if c = cl then st1.tlat_stats c ++ [tail.atime - tail.ttime]
            else st1.tlat_stats c,
        pair_tlat :=
          upd2 st1.pair_tlat cl (dest * cfg.nodes + tail.src)
            (st1.pair_tlat cl (dest * cfg.nodes + tail.src)
              ++ [tail.atime - tail.ttime]) }
    else st1
  else
    { st with
      packet_seq_no :=
        upd2 st.packet_seq_no tail.cl dest
          (st.packet_seq_no tail.cl dest + 1),
      generated :=
        st.generated ++
          [⟨head.dest, head.src, sz, reply_class.toNat, tail.atime + 1,
            tail.tid, tail.ttime⟩] }

/-- The timer loop of `SyntheticTrafficManager::_Inject` for one
(class,source) pair: while the queue timer is at most the current cycle,
increment it and attempt one issuance; stop on the first success.
`issue q` is the oracle for the base engine's `_IssuePacket(source, c)` call
made when the timer has just advanced to `q` (modelled from the spec: the
traffic-pattern collaborator may accept or decline each attempt).
Returns the final timer value, the number of loop iterations executed, and
whether an issuance succeeded. -/
def injectLoop (issue : Int → Bool) (time : Int) (q : Int) :
    Int × Nat × Bool :=
  if q ≤ time then
    if issue (q + 1) then (q + 1, 1, true)
    else
      let r := injectLoop issue time (q + 1)
      (r.1, r.2.1 + 1, r.2.2)
  else (q, 0, false)
termination_by (time + 1 - q).toNat
decreasing_by omega

/-- The body of `SyntheticTrafficManager::_Inject` for a single
(class `c`, source `s`) pair: skip pairs with a non-empty partial-packet
list; pin the timer to the current cycle for reply classes; otherwise run
the timer loop and on success increment the outstanding-transaction counter
and the packet sequence number; finally set the drain flag when draining
past the drain deadline. -/
def injectStep (cfg : Config) (issue : Nat → Nat → Int → Bool) (st : State)
    (c s : Nat) : State :=
  if st.pendingEmpty c s = true then
    let st1 :=
      if 0 ≤ cfg.request_class.getD c (-1) then
        { st with qtime := upd2 st.qtime c s st.time }
      else
        let r := injectLoop (issue c s) st.time (st.qtime c s)
        if r.2.2 then
          { st with
            qtime := upd2 st.qtime c s r.1,
            requests_outstanding :=
              upd2 st.requests_outstanding c s
                (st.requests_outstanding c s + 1),
            packet_seq_no :=
              upd2 st.packet_seq_no c s (st.packet_seq_no c s + 1) }
        else { st with qtime := upd2 st.qtime c s r.1 }
    if st1.sim_state = SimState.draining ∧ st1.drain_time < st1.qtime c s then
      { st1 with qdrained := upd2 st1.qdrained c s true }
    else st1
  else st

/-- The (class, source) pairs visited by `_Inject`, in the source's loop
order: class-major, then source index. -/
def injectPairs (cfg : Config) : List (Nat × Nat) :=
  (List.range cfg.classes).product (List.range cfg.nodes)

/-- Embedding of `SyntheticTrafficManager::_Inject`: fold `injectStep` over
every (class, source) pair in loop order. -/
def inject (cfg : Config) (issue : Nat → Nat → Int → Bool) (st : State) :
    State :=
  (injectPairs cfg).foldl (fun st p => injectStep cfg issue st p.1 p.2) st

/-- Embedding of `SyntheticTrafficManager::_PacketsOutstanding`.  `base` is
the result of the base `TrafficManager::_PacketsOutstanding()` call
(outside the slice; modelled from the spec as reporting whether measured
traffic is still in flight). -/
def packetsOutstanding (cfg : Config) (base : Bool) (st : State) : Bool :=
  if base then true
  else
    (List.range cfg.classes).any fun c =>
      cfg.measure_stats.getD c false &&
        ((List.range cfg.nodes).any fun s => ! st.qdrained c s)

/-- Embedding of `SyntheticTrafficManager::_ResetSim`: reassign every
per-(class,source) queue timer to zero and every drain flag to false.  The
base `TrafficManager::_ResetSim()` call and the traffic-pattern `reset()`
calls act only on state outside the slice. -/
def resetSim (st : State) : State :=
  { st with qtime := fun _ _ => 0, qdrained := fun _ _ => false }

/-- Embedding of `SyntheticTrafficManager::_ClearStats`: clear every
per-class and per-pair latency collector (`Stats::Clear`, modelled from the
spec as emptying the sample list). -/
def clearStats (st : State) : State :=
  { st with tlat_stats := fun _ => [], pair_tlat := fun _ _ => [] }

/-- The weighted scan of `_GetNextPacketSize`: walk the (size, rate) pairs,
returning the first size whose rate exceeds the remaining draw, subtracting
each passed rate; the final entry is guarded by the source's
`assert(prate.back() > pct)`, embedded as returning `none` when the
assertion would fail. -/
def sizeScan : List Int → List Int → Int → Option Int
  | [s], [r], pct => if r > pct then some s else none
  | s :: ss, r :: rs, pct => if r > pct then some s else sizeScan ss rs (pct - r)
  | _, _, _ => none

/-- Embedding of `SyntheticTrafficManager::_GetNextPacketSize(cl)`.  The
uniform draw `RandomInt(max_val)` comes from the external random source, so
the drawn value `pct` enters as a parameter; a class with a single
configured size returns it without consulting the draw. -/
def getNextPacketSize (cfg : Config) (cl : Nat) (pct : Int) : Option Int :=
  let psize := cfg.packet_size.getD cl []
  if psize.length = 1 then some (psize.getD 0 0)
  else sizeScan psize (cfg.packet_size_rate.getD cl []) pct

/-- Embedding of `SyntheticTrafficManager::_GetAveragePacketSize(cl)` with
the C++ `double` arithmetic carried out exactly in `ℚ`: the weighted sum of
sizes divided by `max_val + 1`. -/
def getAveragePacketSize (cfg : Config) (cl : Nat) : ℚ :=
  let psize := cfg.packet_size.getD cl []
  if psize.length = 1 then ((psize.getD 0 0 : Int) : ℚ)
  else
    let prate := cfg.packet_size_rate.getD cl []
    let sum := (List.zipWith (fun a b => a * b) psize prate).sum
    ((sum : Int) : ℚ) / (((cfg.packet_size_max_val.getD cl 0 : Int) : ℚ) + 1)

/-- Modelled from the spec: the `VC` class (`vc.cpp` is outside the slice) —
a FIFO lane of flits bounded by a configured depth, with add/remove and
occupancy predicates.  `addFlit` fails when the lane is at capacity;
`removeFlit` returns no flit when the lane is empty. -/
structure VC where
  capacity : Nat
  flits : List Flit
deriving DecidableEq, Repr

/-- Modelled from the spec: `VC::AddFlit` — refuse when full, else enqueue. -/
def VC.addFlit (v : VC) (f : Flit) : Bool × VC :=
  if v.capacity ≤ v.flits.length then (false, v)
  else (true, { v with flits := v.flits ++ [f] })

/-- Modelled from the spec: `VC::RemoveFlit` — dequeue the oldest flit. -/
def VC.removeFlit (v : VC) : Option Flit × VC :=
  match v.flits with
  | [] => (none, v)
  | f :: rest => (some f, { v with flits := rest })

/-- Modelled from the spec: `VC::Empty`. -/
def VC.emptyLane (v : VC) : Bool := v.flits.isEmpty

/-- Modelled from the spec: `VC::Full`. -/
def VC.fullLane (v : VC) : Bool := v.capacity ≤ v.flits.length

/-- Embedding of the `Buffer` class of `buffer.cpp`: it owns `num_vcs`
lanes indexed `0..num_vcs-1` (here `vcs.length` lanes). -/
structure Buffer where
  vcs : List VC
deriving DecidableEq, Repr

/-- Embedding of `Buffer::AddFlit(vc, f)`: dispatch to the indexed lane.
The C++ body indexes `_vc[vc]` unchecked; an out-of-range index is a fatal
programming error, embedded as `none`. -/
def Buffer.addFlit (b : Buffer) (vc : Nat) (f : Flit) :
    Option (Bool × Buffer) :=
  match b.vcs[vc]? with
  | none => none
  | some v =>
    let r := v.addFlit f
    some (r.1, { b with vcs := b.vcs.set vc r.2 })

/-- Embedding of `Buffer::RemoveFlit(vc)`; out-of-range index is the fatal
outcome `none`. -/
def Buffer.removeFlit (b : Buffer) (vc : Nat) :
    Option (Option Flit × Buffer) :=
  match b.vcs[vc]? with
  | none => none
  | some v =>
    let r := v.removeFlit
    some (r.1, { b with vcs := b.vcs.set vc r.2 })

/-- Embedding of `Buffer::Empty(vc)`; out-of-range index is `none`. -/
def Buffer.emptyLane (b : Buffer) (vc : Nat) : Option Bool :=
  (b.vcs[vc]?).map VC.emptyLane

/-- Embedding of `Buffer::Full(vc)`; out-of-range index is `none`. -/
def Buffer.fullLane (b : Buffer) (vc : Nat) : Option Bool :=
  (b.vcs[vc]?).map VC.fullLane

theorem upd2_same {α : Type} (f : Nat → Nat → α) (i j : Nat) (v : α) :
    upd2 f i j v i j = v := by
  simp [upd2]

theorem upd2_other {α : Type} (f : Nat → Nat → α) (i j : Nat) (v : α)
    (i' j' : Nat) (h : ¬(i' = i ∧ j' = j)) : upd2 f i j v i' j' = f i' j' := by
  simp [upd2, h]

/-- C1: when the tail flit's class has no reply class, `_RetirePacket`
decrements the outstanding counter of the request class at `dest` when the
arriving class is a reply class, and of the arriving class at `tail.src`
otherwise, leaving every other slot unchanged; and it appends exactly one
latency sample `tail.atime - tail.ttime` to the per-class collector and the
(dest, tail.src) pair collector of the resolved class if and only if the
simulation is warming up or the tail flit is flagged for recording. -/
theorem retirePacket_terminal_spec (cfg : Config) (st : State)
    (head tail : Flit) (dest : Nat) (sz : Int) (rq : Int) (cl : Nat)
    (hrc : cfg.reply_class.getD tail.cl (-1) < 0)
    (hrq : rq = cfg.request_class.getD tail.cl (-1))
    (hcl : cl = if rq < 0 then tail.cl else rq.toNat) :
    (rq < 0 →
      (retirePacket cfg st head tail dest sz).requests_outstanding
          tail.cl tail.src
        = st.requests_outstanding tail.cl tail.src - 1 ∧
      ∀ c s, ¬(c = tail.cl ∧ s = tail.src) →
        (retirePacket cfg st head tail dest sz).requests_outstanding c s
          = st.requests_outstanding c s) ∧
    (0 ≤ rq →
      (retirePacket cfg st head tail dest sz).requests_outstanding
          rq.toNat dest
        = st.requests_outstanding rq.toNat dest - 1 ∧
      ∀ c s, ¬(c = rq.toNat ∧ s = dest) →
        (retirePacket cfg st head tail dest sz).requests_outstanding c s
          = st.requests_outstanding c s) ∧
    ((st.sim_state = SimState.warming_up ∨ tail.record = true) →
      (retirePacket cfg st head tail dest sz).tlat_stats cl
        = st.tlat_stats cl ++ [tail.atime - tail.ttime] ∧
      (retirePacket cfg st head tail dest sz).pair_tlat cl
          (dest * cfg.nodes + tail.src)
        = st.pair_tlat cl (dest * cfg.nodes + tail.src)
            ++ [tail.atime - tail.ttime] ∧
      (∀ c, c ≠ cl →
        (retirePacket cfg st head tail dest sz).tlat_stats c
          = st.tlat_stats c) ∧
      (∀ c k, ¬(c = cl ∧ k = dest * cfg.nodes + tail.src) →
        (retirePacket cfg st head tail dest sz).pair_tlat c k
          = st.pair_tlat c k)) ∧
    (¬(st.sim_state = SimState.warming_up ∨ tail.record = true) →
      (retirePacket cfg st head tail dest sz).tlat_stats = st.tlat_stats ∧
      (retirePacket cfg st head tail dest sz).pair_tlat = st.pair_tlat) := by
  subst hrq
  rcases lt_or_le (cfg.request_class.getD tail.cl (-1)) 0 with hq | hq <;>
    by_cases hrec : st.sim_state = SimState.warming_up ∨ tail.record = true
  · rw [if_pos hq] at hcl
    subst hcl
    refine ⟨fun _ => ⟨?_, fun c s h => ?_⟩,
      fun h0 => absurd hq (not_lt.mpr h0),
      fun _ => ⟨?_, ?_, fun c h => ?_, fun c k h => ?_⟩,
      fun h => absurd hrec h⟩ <;>
      simp only [retirePacket, if_pos hrc, if_pos hq, if_pos hrec] <;>
      simp_all [upd2]
  · rw [if_pos hq] at hcl
    subst hcl
    refine ⟨fun _ => ⟨?_, fun c s h => ?_⟩,
      fun h0 => absurd hq (not_lt.mpr h0),
      fun h => absurd h hrec,
      fun _ => ⟨?_, ?_⟩⟩ <;>
      simp only [retirePacket, if_pos hrc, if_pos hq, if_neg hrec] <;>
      simp_all [upd2]
  · rw [if_neg (not_lt.mpr hq)] at hcl
    subst hcl
    refine ⟨fun h0 => absurd h0 (not_lt.mpr hq),
      fun _ => ⟨?_, fun c s h => ?_⟩,
      fun _ => ⟨?_, ?_, fun c h => ?_, fun c k h => ?_⟩,
      fun h => absurd hrec h⟩ <;>
      simp only [retirePacket, if_pos hrc, if_neg (not_lt.mpr hq),
        if_pos hrec] <;>
      simp_all [upd2]
  · rw [if_neg (not_lt.mpr hq)] at hcl
    subst hcl
    refine ⟨fun h0 => absurd h0 (not_lt.mpr hq),
      fun _ => ⟨?_, fun c s h => ?_⟩,
      fun h => absurd h hrec,
      fun _ => ⟨?_, ?_⟩⟩ <;>
      simp only [retirePacket, if_pos hrc, if_neg (not_lt.mpr hq),
        if_neg hrec] <;>
      simp_all [upd2]

/-- C2: when the tail flit's class has a reply class `r`, `_RetirePacket`
records exactly one generated packet with source `head.dest`, destination
`head.src`, class `r`, transaction id `tail.tid`, injection time
`tail.ttime` and creation time `tail.atime + 1`; increments the packet
sequence counter of (tail.cl, dest) by one, leaving other slots unchanged;
and changes no latency collector and no outstanding-transaction counter. -/
theorem retirePacket_request_spec (cfg : Config) (st : State)
    (head tail : Flit) (dest : Nat) (sz : Int)
    (hrc : 0 ≤ cfg.reply_class.getD tail.cl (-1)) :
    (retirePacket cfg st head tail dest sz).generated
      = st.generated ++
        [⟨head.dest, head.src, sz,
          (cfg.reply_class.getD tail.cl (-1)).toNat, tail.atime + 1,
          tail.tid, tail.ttime⟩] ∧
    (retirePacket cfg st head tail dest sz).packet_seq_no tail.cl dest
      = st.packet_seq_no tail.cl dest + 1 ∧
    (∀ c s, ¬(c = tail.cl ∧ s = dest) →
      (retirePacket cfg st head tail dest sz).packet_seq_no c s
        = st.packet_seq_no c s) ∧
    (retirePacket cfg st head tail dest sz).tlat_stats = st.tlat_stats ∧
    (retirePacket cfg st head tail dest sz).pair_tlat = st.pair_tlat ∧
    (retirePacket cfg st head tail dest sz).requests_outstanding
      = st.requests_outstanding := by
  refine ⟨?_, ?_, fun c s h => ?_, ?_, ?_, ?_⟩ <;>
    simp only [retirePacket, if_neg (not_lt.mpr hrc)] <;>
    simp_all [upd2]

/-- A concrete two-class, two-node configuration for witnesses: class 0 is a
request class whose replies arrive as class 1; packet sizes 64 and 512 with
rates 1 and 3 (so `max_val = 3`). -/
def cfgW : Config :=
  ⟨2, 2, [1, -1], [-1, 0], [[64, 512], [64, 512]], [[1, 3], [1, 3]],
    [3, 3], [true, true]⟩

/-- A concrete state for witnesses. -/
def stW : State :=
  ⟨5, SimState.running, 100, fun _ _ => 0, fun _ _ => false, fun _ _ => 0,
    fun _ _ => 0, fun _ => [], fun _ _ => [], fun _ _ => true, []⟩

/-- A concrete reply-class tail flit (class 1, src 1, dest 0, latency 10). -/
def replyTailW : Flit := ⟨1, 1, 0, 7, 2, 12, true, false⟩

/-- A concrete request-class tail flit (class 0, src 0, dest 1). -/
def reqTailW : Flit := ⟨0, 0, 1, 7, 2, 9, true, false⟩

theorem retirePacket_terminal_spec_witness :
    (retirePacket cfgW stW replyTailW replyTailW 0 0).requests_outstanding 0 0
      = stW.requests_outstanding 0 0 - 1 ∧
    (retirePacket cfgW stW replyTailW replyTailW 0 0).tlat_stats 0 = [10] ∧
    (retirePacket cfgW stW replyTailW replyTailW 0 0).pair_tlat 0 1 = [10] := by
  have h := retirePacket_terminal_spec cfgW stW replyTailW replyTailW 0 0 0 0
    (by decide) (by decide) (by decide)
  refine ⟨(h.2.1 (by decide)).1, ?_, ?_⟩
  · simpa using (h.2.2.1 (Or.inr rfl)).1
  · simpa using (h.2.2.1 (Or.inr rfl)).2.1

theorem retirePacket_request_spec_witness :
    (retirePacket cfgW stW reqTailW reqTailW 1 64).generated
      = [⟨1, 0, 64, 1, 10, 7, 2⟩] ∧
    (retirePacket cfgW stW reqTailW reqTailW 1 64).packet_seq_no 0 1
      = stW.packet_seq_no 0 1 + 1 ∧
    (retirePacket cfgW stW reqTailW reqTailW 1 64).requests_outstanding
      = stW.requests_outstanding := by
  have h := retirePacket_request_spec cfgW stW reqTailW reqTailW 1 64
    (by decide)
  refine ⟨?_, h.2.1, h.2.2.2.2.2⟩
  simpa using h.1

theorem sizeScan_mem_of_lt_sum (psize prate : List Int) (pct : Int)
    (hlen : psize.length = prate.length) (hne : psize ≠ [])
    (hlt : pct < prate.sum) :
    ∃ s ∈ psize, sizeScan psize prate pct = some s := by
  induction psize generalizing prate pct with
  | nil => exact absurd rfl hne
  | cons a as ih =>
    cases prate with
    | nil => simp at hlen
    | cons r rs =>
      cases as with
      | nil =>
        cases rs with
        | nil =>
          have hr : r > pct := by simpa using hlt
          exact ⟨a, by simp, by simp [sizeScan, hr]⟩
        | cons r2 rs2 => simp at hlen
      | cons b bs =>
        by_cases hr : r > pct
        · exact ⟨a, by simp, by simp [sizeScan, hr]⟩
        · have hlt2 : pct - r < rs.sum := by
            simp only [List.sum_cons] at hlt
            omega
          have hlen2 : (b :: bs).length = rs.length := by simpa using hlen
          obtain ⟨s, hs, hscan⟩ := ih rs (pct - r) hlen2 (by simp) hlt2
          exact ⟨s, by simp [hs], by simp [sizeScan, hr, hscan]⟩

/-- C4: `_GetNextPacketSize` returns the single configured size without
consulting the random draw when a class has exactly one size; otherwise,
for any draw in `[0, max_val]` with `max_val` the sum of the configured
rates minus one, the ordered weighted scan always terminates with one of
the configured sizes — the final fallback absorbs the residual draw, so the
runtime assertion guarding the last entry never fails (the `none` outcome
never occurs). -/
theorem getNextPacketSize_spec (cfg : Config) (cl : Nat)
    (psize prate : List Int) (pct : Int)
    (hps : psize = cfg.packet_size.getD cl [])
    (hpr : prate = cfg.packet_size_rate.getD cl [])
    (hlen : psize.length = prate.length) (hne : psize ≠ [])
    (hmax : (cfg.packet_size_max_val.getD cl 0 : Int) = prate.sum - 1)
    (hpct : pct ≤ cfg.packet_size_max_val.getD cl 0) :
    (psize.length = 1 →
      ∀ d : Int, getNextPacketSize cfg cl d = some (psize.getD 0 0)) ∧
    ∃ s ∈ psize, getNextPacketSize cfg cl pct = some s := by
  subst hps hpr
  constructor
  · intro h1 d
    simp only [getNextPacketSize]
    rw [if_pos h1]
  · by_cases h1 : (cfg.packet_size.getD cl []).length = 1
    · refine ⟨(cfg.packet_size.getD cl []).getD 0 0, ?_, ?_⟩
      · cases hl : cfg.packet_size.getD cl [] with
        | nil => exact absurd hl hne
        | cons a as => simp
      · simp only [getNextPacketSize]
        rw [if_pos h1]
    · have hlt : pct < (cfg.packet_size_rate.getD cl []).sum := by omega
      obtain ⟨s, hs, hscan⟩ :=
        sizeScan_mem_of_lt_sum _ _ pct hlen hne hlt
      refine ⟨s, hs, ?_⟩
      simp only [getNextPacketSize]
      rw [if_neg h1]
      exact hscan

theorem getNextPacketSize_spec_witness :
    getNextPacketSize cfgW 0 0 = some 64 ∧
    getNextPacketSize cfgW 0 3 = some 512 ∧
    (∃ s ∈ [(64 : Int), 512], getNextPacketSize cfgW 0 3 = some s) := by
  have h := getNextPacketSize_spec cfgW 0 [64, 512] [1, 3] 3
    (by decide) (by decide) (by decide) (by decide) (by decide) (by decide)
  exact ⟨by decide, by decide, h.2⟩

/-- C9: `_GetAveragePacketSize` returns the single configured size for a
one-size class, and otherwise the exact expectation: the sum of
size-times-rate divided by the sum of the rates (the divisor `max_val + 1`
equals the rate sum by the constructor invariant); in particular, for sizes
64 and 512 with rates 1 and 3 it returns exactly 400. -/
theorem getAveragePacketSize_spec (cfg : Config) (cl : Nat)
    (psize prate : List Int)
    (hps : psize = cfg.packet_size.getD cl [])
    (hpr : prate = cfg.packet_size_rate.getD cl [])
    (hmax : (cfg.packet_size_max_val.getD cl 0 : Int) = prate.sum - 1) :
    (psize.length = 1 →
      getAveragePacketSize cfg cl = ((psize.getD 0 0 : Int) : ℚ)) ∧
    (psize.length ≠ 1 →
      getAveragePacketSize cfg cl
        = (((List.zipWith (fun a b => a * b) psize prate).sum : Int) : ℚ)
            / ((prate.sum : Int) : ℚ)) ∧
    getAveragePacketSize cfgW 0 = 400 := by
  subst hps hpr
  refine ⟨fun h1 => ?_, fun h1 => ?_, ?_⟩
  · simp only [getAveragePacketSize]
    rw [if_pos h1]
  · simp only [getAveragePacketSize]
    rw [if_neg h1, hmax]
    congr 1
    push_cast
    ring
  · norm_num [getAveragePacketSize, cfgW]

theorem getAveragePacketSize_spec_witness :
    getAveragePacketSize cfgW 0
      = (((1600 : Int) : ℚ)) / (((4 : Int) : ℚ)) ∧
    getAveragePacketSize cfgW 0 = 400 := by
  have h := getAveragePacketSize_spec cfgW 0 [64, 512] [1, 3]
    (by decide) (by decide) (by decide)
  refine ⟨?_, h.2.2⟩
  have h2 := h.2.1 (by decide)
  simpa using h2

theorem getElem?_isSome_iff {α : Type} (l : List α) (i : Nat) :
    l[i]?.isSome = true ↔ i < l.length := by
  rw [Option.isSome_iff_exists]
  constructor
  · rintro ⟨a, ha⟩
    exact (List.getElem?_eq_some.mp ha).1
  · intro h
    exact ⟨l[i], List.getElem?_eq_getElem h⟩

/-- C8: every `Buffer` operation taking a VC index (`AddFlit`, `RemoveFlit`,
`Empty`, `Full`) yields a normal outcome exactly when the index is in
`[0, num_vcs)`; an out-of-range index yields the fatal outcome `none` and
never a recoverable result. -/
theorem buffer_vc_index_spec (b : Buffer) (vc : Nat) (f : Flit) :
    ((b.addFlit vc f).isSome = true ↔ vc < b.vcs.length) ∧
    ((b.removeFlit vc).isSome = true ↔ vc < b.vcs.length) ∧
    ((b.emptyLane vc).isSome = true ↔ vc < b.vcs.length) ∧
    ((b.fullLane vc).isSome = true ↔ vc < b.vcs.length) := by
  refine ⟨?_, ?_, ?_, ?_⟩ <;>
    rw [← getElem?_isSome_iff] <;>
    cases h : b.vcs[vc]? <;>
    simp [Buffer.addFlit, Buffer.removeFlit, Buffer.emptyLane,
      Buffer.fullLane, h]

/-- C6: `_PacketsOutstanding` returns false exactly when the base engine
reports no in-flight measured traffic and, for every class whose statistics
are measured, every source's queue is drained. -/
theorem packetsOutstanding_spec (cfg : Config) (base : Bool) (st : State) :
    packetsOutstanding cfg base st = false ↔
      base = false ∧
      ∀ c, c < cfg.classes → cfg.measure_stats.getD c false = true →
        ∀ s, s < cfg.nodes → st.qdrained c s = true := by
  cases base <;> simp [packetsOutstanding]

theorem injectLoop_le (issue : Int → Bool) (time q : Int) :
    q ≤ (injectLoop issue time q).1 := by
  refine injectLoop.induct issue time
    (fun q => q ≤ (injectLoop issue time q).1) ?_ ?_ ?_ q
  · intro x hle hiss
    rw [injectLoop]
    simp [hle, hiss]
  · intro x hle hniss ih
    rw [injectLoop]
    simp only [if_pos hle, if_neg hniss]
    omega
  · intro x hnle
    rw [injectLoop]
    simp [hnle]

theorem injectLoop_iter_le (issue : Int → Bool) (time q : Int) :
    (injectLoop issue time q).2.1 ≤ (time + 1 - q).toNat := by
  refine injectLoop.induct issue time
    (fun q => (injectLoop issue time q).2.1 ≤ (time + 1 - q).toNat)
    ?_ ?_ ?_ q
  · intro x hle hiss
    rw [injectLoop]
    simp [hle, hiss]
    omega
  · intro x hle hniss ih
    rw [injectLoop]
    simp only [if_pos hle, if_neg hniss]
    omega
  · intro x hnle
    rw [injectLoop]
    simp [hnle]

theorem injectLoop_issued (issue : Int → Bool) (time q : Int)
    (h : (injectLoop issue time q).2.2 = true) :
    issue (injectLoop issue time q).1 = true ∧
    q < (injectLoop issue time q).1 ∧
    (injectLoop issue time q).1 ≤ time + 1 ∧
    ∀ q', q < q' → q' < (injectLoop issue time q).1 → issue q' = false := by
  refine injectLoop.induct issue time
    (fun q => (injectLoop issue time q).2.2 = true →
      issue (injectLoop issue time q).1 = true ∧
      q < (injectLoop issue time q).1 ∧
      (injectLoop issue time q).1 ≤ time + 1 ∧
      ∀ q', q < q' → q' < (injectLoop issue time q).1 → issue q' = false)
    ?_ ?_ ?_ q h
  · intro x hle hiss _
    rw [injectLoop]
    simp only [if_pos hle, if_pos hiss]
    exact ⟨hiss, by omega, by omega, fun q' h1 h2 => by omega⟩
  · intro x hle hniss ih hh
    rw [injectLoop] at hh ⊢
    simp only [if_pos hle, if_neg hniss] at hh ⊢
    obtain ⟨i1, i2, i3, i4⟩ := ih hh
    refine ⟨i1, by omega, i3, fun q' h1 h2 => ?_⟩
    rcases eq_or_lt_of_le (by omega : x + 1 ≤ q') with he | hl
    · rw [← he]
      simpa using hniss
    · exact i4 q' hl h2
  · intro x hnle hh
    rw [injectLoop] at hh
    simp [hnle] at hh

theorem injectLoop_not_issued (issue : Int → Bool) (time q : Int)
    (h : (injectLoop issue time q).2.2 = false) :
    (injectLoop issue time q).1 = max q (time + 1) := by
  refine injectLoop.induct issue time
    (fun q => (injectLoop issue time q).2.2 = false →
      (injectLoop issue time q).1 = max q (time + 1)) ?_ ?_ ?_ q h
  · intro x hle hiss hh
    rw [injectLoop] at hh
    simp [hle, hiss] at hh
  · intro x hle hniss ih hh
    rw [injectLoop] at hh ⊢
    simp only [if_pos hle, if_neg hniss] at hh ⊢
    rw [ih hh]
    omega
  · intro x hnle _
    rw [injectLoop]
    simp only [if_neg hnle]
    omega

/-- The effect of one `injectStep` on its own (class, source) slot, as a
pure function of the slot's observables (timer, drain flag, outstanding
counter, sequence number) and the global fields it reads. -/
def slotStep (issue : Int → Bool) (time : Int) (sim : SimState)
    (drain : Int) (pend : Bool) (reqcls : Int)
    (q : Int) (d : Bool) (ro sq : Int) : Int × Bool × Int × Int :=
  if pend = true then
    let p1 :=
      if 0 ≤ reqcls then (time, d, ro, sq)
      else
        let r := injectLoop issue time q
        if r.2.2 then (r.1, d, ro + 1, sq + 1)
        else (r.1, d, ro, sq)
    if sim = SimState.draining ∧ drain < p1.1 then (p1.1, true, p1.2.2)
    else p1
  else (q, d, ro, sq)

theorem injectStep_globals (cfg : Config) (issue : Nat → Nat → Int → Bool)
    (st : State) (c s : Nat) :
    (injectStep cfg issue st c s).time = st.time ∧
    (injectStep cfg issue st c s).sim_state = st.sim_state ∧
    (injectStep cfg issue st c s).drain_time = st.drain_time ∧
    (injectStep cfg issue st c s).pendingEmpty = st.pendingEmpty ∧
    (injectStep cfg issue st c s).tlat_stats = st.tlat_stats ∧
    (injectStep cfg issue st c s).pair_tlat = st.pair_tlat ∧
    (injectStep cfg issue st c s).generated = st.generated := by
  simp only [injectStep]
  split_ifs <;> simp

theorem injectStep_other (cfg : Config) (issue : Nat → Nat → Int → Bool)
    (st : State) (c s c' s' : Nat) (h : ¬(c = c' ∧ s = s')) :
    (injectStep cfg issue st c' s').qtime c s = st.qtime c s ∧
    (injectStep cfg issue st c' s').qdrained c s = st.qdrained c s ∧
    (injectStep cfg issue st c' s').requests_outstanding c s
      = st.requests_outstanding c s ∧
    (injectStep cfg issue st c' s').packet_seq_no c s
      = st.packet_seq_no c s := by
  simp only [injectStep]
  split_ifs <;> simp [upd2, h]

theorem injectStep_self (cfg : Config) (issue : Nat → Nat → Int → Bool)
    (st : State) (c s : Nat) :
    ((injectStep cfg issue st c s).qtime c s,
     (injectStep cfg issue st c s).qdrained c s,
     (injectStep cfg issue st c s).requests_outstanding c s,
     (injectStep cfg issue st c s).packet_seq_no c s)
    = slotStep (issue c s) st.time st.sim_state st.drain_time
        (st.pendingEmpty c s) (cfg.request_class.getD c (-1))
        (st.qtime c s) (st.qdrained c s) (st.requests_outstanding c s)
        (st.packet_seq_no c s) := by
  simp only [injectStep, slotStep]
  split_ifs <;> simp_all [upd2]

theorem foldl_injectStep_globals (cfg : Config)
    (issue : Nat → Nat → Int → Bool) (l : List (Nat × Nat)) (st : State) :
    (l.foldl (fun st p => injectStep cfg issue st p.1 p.2) st).time = st.time ∧
    (l.foldl (fun st p => injectStep cfg issue st p.1 p.2) st).sim_state
      = st.sim_state ∧
    (l.foldl (fun st p => injectStep cfg issue st p.1 p.2) st).drain_time
      = st.drain_time ∧
    (l.foldl (fun st p => injectStep cfg issue st p.1 p.2) st).pendingEmpty
      = st.pendingEmpty := by
  induction l generalizing st with
  | nil => exact ⟨rfl, rfl, rfl, rfl⟩
  | cons p l ih =>
    obtain ⟨g1, g2, g3, g4, _⟩ := injectStep_globals cfg issue st p.1 p.2
    obtain ⟨i1, i2, i3, i4⟩ := ih (injectStep cfg issue st p.1 p.2)
    exact ⟨by simp [i1, g1], by simp [i2, g2], by simp [i3, g3],
      by simp [i4, g4]⟩

theorem foldl_injectStep_not_mem (cfg : Config)
    (issue : Nat → Nat → Int → Bool) (l : List (Nat × Nat)) (st : State)
    (c s : Nat) (h : (c, s) ∉ l) :
    (l.foldl (fun st p => injectStep cfg issue st p.1 p.2) st).qtime c s
      = st.qtime c s ∧
    (l.foldl (fun st p => injectStep cfg issue st p.1 p.2) st).qdrained c s
      = st.qdrained c s ∧
    (l.foldl (fun st p =>
        injectStep cfg issue st p.1 p.2) st).requests_outstanding c s
      = st.requests_outstanding c s ∧
    (l.foldl (fun st p => injectStep cfg issue st p.1 p.2) st).packet_seq_no
        c s
      = st.packet_seq_no c s := by
  induction l generalizing st with
  | nil => exact ⟨rfl, rfl, rfl, rfl⟩
  | cons p l ih =>
    have hp : ¬(c = p.1 ∧ s = p.2) := by
      rintro ⟨h1, h2⟩
      exact h (by simp [h1, h2])
    obtain ⟨o1, o2, o3, o4⟩ := injectStep_other cfg issue st c s p.1 p.2 hp
    obtain ⟨i1, i2, i3, i4⟩ := ih (injectStep cfg issue st p.1 p.2)
      (fun hm => h (List.mem_cons_of_mem p hm))
    exact ⟨by simp [i1, o1], by simp [i2, o2], by simp [i3, o3],
      by simp [i4, o4]⟩

theorem injectPairs_mem (cfg : Config) (c s : Nat) :
    (c, s) ∈ injectPairs cfg ↔ c < cfg.classes ∧ s < cfg.nodes := by
  simp [injectPairs, List.pair_mem_product]

theorem injectPairs_nodup (cfg : Config) : (injectPairs cfg).Nodup :=
  (List.nodup_range cfg.classes).product (List.nodup_range cfg.nodes)

/-- The slot view of the full `_Inject` pass: for a pair within range, the
slot's observables after `inject` are exactly `slotStep` applied to the
original slot observables and the global fields. -/
theorem inject_slot (cfg : Config) (issue : Nat → Nat → Int → Bool)
    (st : State) (c s : Nat) (hc : c < cfg.classes) (hs : s < cfg.nodes) :
    ((inject cfg issue st).qtime c s,
     (inject cfg issue st).qdrained c s,
     (inject cfg issue st).requests_outstanding c s,
     (inject cfg issue st).packet_seq_no c s)
    = slotStep (issue c s) st.time st.sim_state st.drain_time
        (st.pendingEmpty c s) (cfg.request_class.getD c (-1))
        (st.qtime c s) (st.qdrained c s) (st.requests_outstanding c s)
        (st.packet_seq_no c s) := by
  have hm : (c, s) ∈ injectPairs cfg := (injectPairs_mem cfg c s).mpr ⟨hc, hs⟩
  obtain ⟨l1, l2, hsplit⟩ := List.append_of_mem hm
  have hnd : (injectPairs cfg).Nodup := injectPairs_nodup cfg
  rw [hsplit] at hnd
  have hn1 : (c, s) ∉ l1 := by
    intro hmem
    have := (List.nodup_append.mp hnd).2.2
    exact this hmem (by simp)
  have hn2 : (c, s) ∉ l2 := by
    have := (List.nodup_append.mp hnd).2.1
    exact (List.nodup_cons.mp this).1
  unfold inject
  rw [hsplit, List.foldl_append]
  set mid := l1.foldl (fun st p => injectStep cfg issue st p.1 p.2) st with hmid
  obtain ⟨m1, m2, m3, m4⟩ :=
    foldl_injectStep_not_mem cfg issue l1 st c s hn1
  obtain ⟨g1, g2, g3, g4⟩ := foldl_injectStep_globals cfg issue l1 st
  simp only [List.foldl_cons]
  obtain ⟨f1, f2, f3, f4⟩ :=
    foldl_injectStep_not_mem cfg issue l2 (injectStep cfg issue mid c s)
      c s hn2
  rw [f1, f2, f3, f4]
  have hself := injectStep_self cfg issue mid c s
  rw [hself, m1, m2, m3, m4, g1, g2, g3]
  have hpe : mid.pendingEmpty c s = st.pendingEmpty c s := by rw [g4]
  rw [hpe]

/-- For a pair out of range (never visited by the loops), `_Inject` leaves
the slot unchanged. -/
theorem inject_slot_out (cfg : Config) (issue : Nat → Nat → Int → Bool)
    (st : State) (c s : Nat) (h : ¬(c < cfg.classes ∧ s < cfg.nodes)) :
    (inject cfg issue st).qtime c s = st.qtime c s ∧
    (inject cfg issue st).qdrained c s = st.qdrained c s ∧
    (inject cfg issue st).requests_outstanding c s
      = st.requests_outstanding c s ∧
    (inject cfg issue st).packet_seq_no c s = st.packet_seq_no c s := by
  have hm : (c, s) ∉ injectPairs cfg := by
    rw [injectPairs_mem]
    exact h
  exact foldl_injectStep_not_mem cfg issue (injectPairs cfg) st c s hm

/-- C3: in each `_Inject` call, a (class, source) pair with an empty
partial-packet list either (reply class) gets its timer pinned to the
current cycle with no issuance, or (non-reply class) runs the timer loop:
the timer is advanced one cycle per attempt while at most the current
cycle, the loop stops at the first successful issuance (every strictly
earlier attempt after the initial timer failed), and that success
increments the outstanding-transaction counter and the packet sequence
number by one; a pair with a non-empty partial-packet list is left
unchanged. -/
theorem inject_pair_spec (cfg : Config) (issue : Nat → Nat → Int → Bool)
    (st : State) (c s : Nat) (hc : c < cfg.classes) (hs : s < cfg.nodes) :
    (st.pendingEmpty c s = false →
      (inject cfg issue st).qtime c s = st.qtime c s ∧
      (inject cfg issue st).qdrained c s = st.qdrained c s ∧
      (inject cfg issue st).requests_outstanding c s
        = st.requests_outstanding c s ∧
      (inject cfg issue st).packet_seq_no c s = st.packet_seq_no c s) ∧
    (st.pendingEmpty c s = true → 0 ≤ cfg.request_class.getD c (-1) →
      (inject cfg issue st).qtime c s = st.time ∧
      (inject cfg issue st).requests_outstanding c s
        = st.requests_outstanding c s ∧
      (inject cfg issue st).packet_seq_no c s = st.packet_seq_no c s) ∧
    (st.pendingEmpty c s = true → cfg.request_class.getD c (-1) < 0 →
      (inject cfg issue st).qtime c s
        = (injectLoop (issue c s) st.time (st.qtime c s)).1 ∧
      ((injectLoop (issue c s) st.time (st.qtime c s)).2.2 = true →
        (inject cfg issue st).requests_outstanding c s
          = st.requests_outstanding c s + 1 ∧
        (inject cfg issue st).packet_seq_no c s
          = st.packet_seq_no c s + 1 ∧
        issue c s ((injectLoop (issue c s) st.time (st.qtime c s)).1)
          = true ∧
        st.qtime c s < (injectLoop (issue c s) st.time (st.qtime c s)).1 ∧
        (injectLoop (issue c s) st.time (st.qtime c s)).1 ≤ st.time + 1 ∧
        ∀ q, st.qtime c s < q →
          q < (injectLoop (issue c s) st.time (st.qtime c s)).1 →
          issue c s q = false) ∧
      ((injectLoop (issue c s) st.time (st.qtime c s)).2.2 = false →
        (inject cfg issue st).requests_outstanding c s
          = st.requests_outstanding c s ∧
        (inject cfg issue st).packet_seq_no c s = st.packet_seq_no c s)) := by
  have h := inject_slot cfg issue st c s hc hs
  have h1 := congrArg (fun p : Int × Bool × Int × Int => p.1) h
  have h2 := congrArg (fun p : Int × Bool × Int × Int => p.2.1) h
  have h3 := congrArg (fun p : Int × Bool × Int × Int => p.2.2.1) h
  have h4 := congrArg (fun p : Int × Bool × Int × Int => p.2.2.2) h
  dsimp only at h1 h2 h3 h4
  refine ⟨fun hp => ?_, fun hp hq => ?_, fun hp hq => ?_⟩
  · rw [hp] at h1 h2 h3 h4
    simp only [slotStep, Bool.false_eq_true, if_false] at h1 h2 h3 h4
    exact ⟨h1, h2, h3, h4⟩
  · rw [hp] at h1 h3 h4
    by_cases hd : st.sim_state = SimState.draining ∧ st.drain_time < st.time
    · simp only [slotStep, if_pos rfl, if_true, if_pos hq, if_pos hd] at h1 h3 h4
      exact ⟨h1, h3, h4⟩
    · simp only [slotStep, if_pos rfl, if_true, if_pos hq, if_neg hd] at h1 h3 h4
      exact ⟨h1, h3, h4⟩
  · rw [hp] at h1 h3 h4
    have hq' : ¬ 0 ≤ cfg.request_class.getD c (-1) := not_le.mpr hq
    rcases Bool.eq_false_or_eq_true
        ((injectLoop (issue c s) st.time (st.qtime c s)).2.2) with
      hiss | hiss
    · -- loop issued
      by_cases hd : st.sim_state = SimState.draining ∧
          st.drain_time < (injectLoop (issue c s) st.time (st.qtime c s)).1
      · simp only [slotStep, if_pos rfl, if_true, if_neg hq', hiss,
          if_pos hd] at h1 h3 h4
        obtain ⟨i1, i2, i3, i4⟩ :=
          injectLoop_issued (issue c s) st.time (st.qtime c s) hiss
        exact ⟨h1, fun _ => ⟨h3, h4, i1, i2, i3, i4⟩,
          fun hf => by simp [hiss] at hf⟩
      · simp only [slotStep, if_pos rfl, if_true, if_neg hq', hiss,
          if_neg hd] at h1 h3 h4
        obtain ⟨i1, i2, i3, i4⟩ :=
          injectLoop_issued (issue c s) st.time (st.qtime c s) hiss
        exact ⟨h1, fun _ => ⟨h3, h4, i1, i2, i3, i4⟩,
          fun hf => by simp [hiss] at hf⟩
    · -- loop did not issue
      by_cases hd : st.sim_state = SimState.draining ∧
          st.drain_time < (injectLoop (issue c s) st.time (st.qtime c s)).1
      · simp only [slotStep, if_pos rfl, if_true, if_neg hq', hiss,
          Bool.false_eq_true, if_false, if_pos hd] at h1 h3 h4
        exact ⟨h1, fun ht => by simp [hiss] at ht, fun _ => ⟨h3, h4⟩⟩
      · simp only [slotStep, if_pos rfl, if_true, if_neg hq', hiss,
          Bool.false_eq_true, if_false, if_neg hd] at h1 h3 h4
        exact ⟨h1, fun ht => by simp [hiss] at ht, fun _ => ⟨h3, h4⟩⟩

/-- An issuance oracle that accepts every attempt, for witnesses. -/
def issueTrueW : Nat → Nat → Int → Bool := fun _ _ _ => true

theorem inject_pair_spec_witness :
    (inject cfgW issueTrueW stW).qtime 0 0 = 1 ∧
    (inject cfgW issueTrueW stW).requests_outstanding 0 0
      = stW.requests_outstanding 0 0 + 1 ∧
    (inject cfgW issueTrueW stW).qtime 1 0 = stW.time := by
  have h00 := inject_pair_spec cfgW issueTrueW stW 0 0
    (by decide) (by decide)
  have h10 := inject_pair_spec cfgW issueTrueW stW 1 0
    (by decide) (by decide)
  have hl : injectLoop (issueTrueW 0 0) stW.time (stW.qtime 0 0)
      = (1, 1, true) := by
    rw [injectLoop]
    simp [issueTrueW, stW]
  obtain ⟨e1, e2, _⟩ := (h00.2.2 rfl (by decide))
  refine ⟨?_, (e2 (by rw [hl])).1, (h10.2.1 rfl (by decide)).1⟩
  rw [e1, hl]

/-- C10: `_Inject` terminates.  For a non-reply (class, source) pair with an
empty partial-packet list, the timer loop runs at most
`max(0, time - qtime + 1)` iterations (here `(time - qtime + 1).toNat`),
since the timer is strictly incremented each iteration and the loop exits
once it exceeds the current cycle; and the pair's final timer is never
below its initial value. -/
theorem inject_terminates_spec (cfg : Config)
    (issue : Nat → Nat → Int → Bool) (st : State) (c s : Nat)
    (hc : c < cfg.classes) (hs : s < cfg.nodes)
    (hp : st.pendingEmpty c s = true)
    (hq : cfg.request_class.getD c (-1) < 0) :
    (injectLoop (issue c s) st.time (st.qtime c s)).2.1
      ≤ (st.time - st.qtime c s + 1).toNat ∧
    st.qtime c s ≤ (injectLoop (issue c s) st.time (st.qtime c s)).1 ∧
    (inject cfg issue st).qtime c s
      = (injectLoop (issue c s) st.time (st.qtime c s)).1 ∧
    st.qtime c s ≤ (inject cfg issue st).qtime c s := by
  have hb := injectLoop_iter_le (issue c s) st.time (st.qtime c s)
  have hle := injectLoop_le (issue c s) st.time (st.qtime c s)
  have h := inject_slot cfg issue st c s hc hs
  have h1 := congrArg (fun p : Int × Bool × Int × Int => p.1) h
  dsimp only at h1
  rw [hp] at h1
  have hq' : ¬ 0 ≤ cfg.request_class.getD c (-1) := not_le.mpr hq
  rcases Bool.eq_false_or_eq_true
      ((injectLoop (issue c s) st.time (st.qtime c s)).2.2) with hiss | hiss <;>
    by_cases hd : st.sim_state = SimState.draining ∧
      st.drain_time < (injectLoop (issue c s) st.time (st.qtime c s)).1
  · simp only [slotStep, if_pos rfl, if_true, if_neg hq', hiss, if_pos hd]
      at h1
    exact ⟨by omega, hle, h1, by omega⟩
  · simp only [slotStep, if_pos rfl, if_true, if_neg hq', hiss, if_neg hd]
      at h1
    exact ⟨by omega, hle, h1, by omega⟩
  · simp only [slotStep, if_pos rfl, if_true, if_neg hq', hiss,
      Bool.false_eq_true, if_false, if_pos hd] at h1
    exact ⟨by omega, hle, h1, by omega⟩
  · simp only [slotStep, if_pos rfl, if_true, if_neg hq', hiss,
      Bool.false_eq_true, if_false, if_neg hd] at h1
    exact ⟨by omega, hle, h1, by omega⟩

theorem inject_terminates_spec_witness :
    (injectLoop (issueTrueW 0 0) stW.time (stW.qtime 0 0)).2.1
      ≤ (stW.time - stW.qtime 0 0 + 1).toNat ∧
    stW.qtime 0 0 ≤ (inject cfgW issueTrueW stW).qtime 0 0 := by
  have h := inject_terminates_spec cfgW issueTrueW stW 0 0
    (by decide) (by decide) rfl (by decide)
  exact ⟨h.1, h.2.2.2⟩

theorem slotStep_qdrained_cases (issue : Int → Bool) (time : Int)
    (sim : SimState) (drain : Int) (pend : Bool) (reqcls : Int)
    (q : Int) (d : Bool) (ro sq : Int) :
    (slotStep issue time sim drain pend reqcls q d ro sq).2.1 = d ∨
    (sim = SimState.draining ∧
      drain < (slotStep issue time sim drain pend reqcls q d ro sq).1 ∧
      (slotStep issue time sim drain pend reqcls q d ro sq).2.1 = true) := by
  simp only [slotStep]
  split_ifs <;> simp_all

/-- C5: the drain flag of a (class, source) pair is monotone: `_Inject` can
only set it (and only while the simulation is draining with the pair's
timer beyond the drain deadline), `_RetirePacket` and `_ClearStats` never
touch it, and only `_ResetSim` clears it — resetting every timer to zero
and every drain flag to false. -/
theorem qdrained_monotone_spec (cfg : Config)
    (issue : Nat → Nat → Int → Bool) (st : State) (head tail : Flit)
    (dest : Nat) (sz : Int) :
    (∀ c s, st.qdrained c s = true → (inject cfg issue st).qdrained c s
      = true) ∧
    (∀ c s, (inject cfg issue st).qdrained c s = true →
      st.qdrained c s = true ∨
      (st.sim_state = SimState.draining ∧
        st.drain_time < (inject cfg issue st).qtime c s)) ∧
    (retirePacket cfg st head tail dest sz).qdrained = st.qdrained ∧
    (clearStats st).qdrained = st.qdrained ∧
    (∀ c s, (resetSim st).qtime c s = 0 ∧
      (resetSim st).qdrained c s = false) := by
  refine ⟨?_, ?_, ?_, rfl, fun c s => ⟨rfl, rfl⟩⟩
  · intro c s hd
    by_cases hin : c < cfg.classes ∧ s < cfg.nodes
    · have h := inject_slot cfg issue st c s hin.1 hin.2
      have h2 := congrArg (fun p : Int × Bool × Int × Int => p.2.1) h
      dsimp only at h2
      rcases slotStep_qdrained_cases (issue c s) st.time st.sim_state
          st.drain_time (st.pendingEmpty c s) (cfg.request_class.getD c (-1))
          (st.qtime c s) (st.qdrained c s) (st.requests_outstanding c s)
          (st.packet_seq_no c s) with hcase | hcase
      · rw [h2, hcase, hd]
      · rw [h2, hcase.2.2]
    · rw [(inject_slot_out cfg issue st c s hin).2.1, hd]
  · intro c s hd
    by_cases hin : c < cfg.classes ∧ s < cfg.nodes
    · have h := inject_slot cfg issue st c s hin.1 hin.2
      have h1 := congrArg (fun p : Int × Bool × Int × Int => p.1) h
      have h2 := congrArg (fun p : Int × Bool × Int × Int => p.2.1) h
      dsimp only at h1 h2
      rcases slotStep_qdrained_cases (issue c s) st.time st.sim_state
          st.drain_time (st.pendingEmpty c s) (cfg.request_class.getD c (-1))
          (st.qtime c s) (st.qdrained c s) (st.requests_outstanding c s)
          (st.packet_seq_no c s) with hcase | hcase
      · left
        rw [← hcase, ← h2]
        exact hd
      · right
        exact ⟨hcase.1, by rw [h1]; exact hcase.2.1⟩
    · left
      rw [← (inject_slot_out cfg issue st c s hin).2.1]
      exact hd
  · simp only [retirePacket]
    split_ifs <;> rfl

theorem qdrained_monotone_spec_witness :
    ((inject cfgW issueTrueW
        { stW with qdrained := fun _ _ => true }).qdrained 0 0 = true) ∧
    (resetSim stW).qtime 0 0 = 0 ∧ (resetSim stW).qdrained 0 0 = false := by
  have h := qdrained_monotone_spec cfgW issueTrueW
    { stW with qdrained := fun _ _ => true } replyTailW replyTailW 0 0
  have h2 := qdrained_monotone_spec cfgW issueTrueW stW replyTailW
    replyTailW 0 0
  exact ⟨h.1 0 0 rfl, (h2.2.2.2.2 0 0).1, (h2.2.2.2.2 0 0).2⟩

/-- The (class, node) slot whose outstanding-transaction counter will be
decremented when the transaction carried by flit `f` completes: for a
reply-class flit (a flit whose class has a request class) the request class
at the flit's destination, otherwise the flit's class at its source —
read off from the decrement sites of `_RetirePacket`. -/
def charge (cfg : Config) (f : Flit) : Nat × Nat :=
  if 0 ≤ cfg.request_class.getD f.cl (-1)
  then ((cfg.request_class.getD f.cl (-1)).toNat, f.dest)
  else (f.cl, f.src)

theorem injectStep_issued_ro (cfg : Config)
    (issue : Nat → Nat → Int → Bool) (st : State) (c s : Nat)
    (hp : st.pendingEmpty c s = true)
    (hq : cfg.request_class.getD c (-1) < 0)
    (hiss : (injectLoop (issue c s) st.time (st.qtime c s)).2.2 = true) :
    (injectStep cfg issue st c s).requests_outstanding
      = upd2 st.requests_outstanding c s
          (st.requests_outstanding c s + 1) := by
  simp only [injectStep, hp, if_pos rfl, if_true, if_neg (not_le.mpr hq),
    hiss]
  split_ifs <;> rfl

theorem retirePacket_ro_terminal (cfg : Config) (st : State)
    (head tail : Flit) (dest : Nat) (sz : Int)
    (hrc : cfg.reply_class.getD tail.cl (-1) < 0) :
    (retirePacket cfg st head tail dest sz).requests_outstanding
      = if cfg.request_class.getD tail.cl (-1) < 0 then
          upd2 st.requests_outstanding tail.cl tail.src
            (st.requests_outstanding tail.cl tail.src - 1)
        else
          upd2 st.requests_outstanding
            (cfg.request_class.getD tail.cl (-1)).toNat dest
            (st.requests_outstanding
              (cfg.request_class.getD tail.cl (-1)).toNat dest - 1) := by
  simp only [retirePacket, if_pos hrc]
  split_ifs <;> rfl

theorem retirePacket_ro_request (cfg : Config) (st : State)
    (head tail : Flit) (dest : Nat) (sz : Int)
    (hrc : 0 ≤ cfg.reply_class.getD tail.cl (-1)) :
    (retirePacket cfg st head tail dest sz).requests_outstanding
      = st.requests_outstanding := by
  simp only [retirePacket, if_neg (not_lt.mpr hrc)]

/-- Transition relation of one simulated trial, over the manager state
paired with the list of packets currently in flight in the network.
Modelled from the spec for the parts outside the slice: the network
delivers each injected packet exactly once, at its destination, with the
head and tail flits of one packet agreeing on class, source and
destination.  Issuance is an `injectStep` whose timer loop succeeds (the
only place `_Inject` increments a counter, and only for non-reply classes);
retirement is a `_RetirePacket` call on an in-flight packet, a request
retirement putting the generated reply into flight; every other operation
(`frame`) leaves the counters and the in-flight packets unchanged. -/
inductive TStep (cfg : Config) :
    State × List Flit → State × List Flit → Prop where
  | issue (st : State) (fl : List Flit) (issue : Nat → Nat → Int → Bool)
      (c s : Nat) (f : Flit)
      (hc : c < cfg.classes)
      (hreq : cfg.request_class.getD c (-1) < 0)
      (hp : st.pendingEmpty c s = true)
      (hiss : (injectLoop (issue c s) st.time (st.qtime c s)).2.2 = true)
      (hcl : f.cl = c) (hsrc : f.src = s) :
      TStep cfg (st, fl) (injectStep cfg issue st c s, f :: fl)
  | retire (st : State) (l1 l2 : List Flit) (head f : Flit) (sz : Int)
      (hclass : f.cl < cfg.classes)
      (hh1 : head.src = f.src) (hh2 : head.dest = f.dest)
      (hterm : cfg.reply_class.getD f.cl (-1) < 0) :
      TStep cfg (st, l1 ++ f :: l2)
        (retirePacket cfg st head f f.dest sz, l1 ++ l2)
  | retireRequest (st : State) (l1 l2 : List Flit) (head f f' : Flit)
      (sz : Int)
      (hclass : f.cl < cfg.classes)
      (hh1 : head.src = f.src) (hh2 : head.dest = f.dest)
      (hreq : 0 ≤ cfg.reply_class.getD f.cl (-1))
      (hf1 : f'.cl = (cfg.reply_class.getD f.cl (-1)).toNat)
      (hf2 : f'.src = f.dest) (hf3 : f'.dest = f.src) :
      TStep cfg (st, l1 ++ f :: l2)
        (retirePacket cfg st head f f.dest sz, (l1 ++ l2) ++ [f'])
  | frame (st st' : State) (fl : List Flit)
      (hro : st'.requests_outstanding = st.requests_outstanding) :
      TStep cfg (st, fl) (st', fl)

/-- Reachable trial states: any state with all outstanding counters zero
and nothing in flight (the situation established by `_ResetSim` and the
base reset), closed under `TStep`. -/
inductive Reach (cfg : Config) : State × List Flit → Prop where
  | init (st : State) (h : ∀ c s, st.requests_outstanding c s = 0) :
      Reach cfg (st, [])
  | step (a b : State × List Flit) (ha : Reach cfg a)
      (hs : TStep cfg a b) : Reach cfg b

/-- In every reachable trial state, each outstanding-transaction counter
equals the number of in-flight packets charged to its slot.  Requires the
constructor invariants of the reply-class map: `request_class[reply_class
[c]] = c`, and no class is both a request class and a reply class. -/
theorem reach_count (cfg : Config)
    (Hpair : ∀ c, c < cfg.classes → 0 ≤ cfg.reply_class.getD c (-1) →
      cfg.request_class.getD (cfg.reply_class.getD c (-1)).toNat (-1)
        = (c : Int))
    (Hnochain : ∀ c, c < cfg.classes → 0 ≤ cfg.reply_class.getD c (-1) →
      cfg.request_class.getD c (-1) < 0)
    (p : State × List Flit) (h : Reach cfg p) :
    ∀ c s, p.1.requests_outstanding c s
      = (p.2.countP (fun f => decide (charge cfg f = (c, s))) : Int) := by
  induction h with
  | init st h0 =>
    intro c s
    simp [h0 c s]
  | step a b ha hs ih =>
    cases hs with
    | issue st fl issue c0 s0 f hc hreq hp hiss hcl hsrc =>
      intro c s
      have hch : charge cfg f = (c0, s0) := by
        rw [charge, hcl, hsrc, if_neg (not_le.mpr hreq)]
      simp only
      rw [injectStep_issued_ro cfg issue st c0 s0 hp hreq hiss]
      rw [List.countP_cons]
      have hi := ih c s
      simp only at hi
      by_cases he : c = c0 ∧ s = s0
      · obtain ⟨he1, he2⟩ := he
        subst he1
        subst he2
        rw [upd2, if_pos ⟨rfl, rfl⟩]
        have hpc : decide (charge cfg f = (c, s)) = true := by
          simp [hch]
        simp only [hpc, if_pos rfl, if_true]
        omega
      · rw [upd2, if_neg he]
        have hpc : decide (charge cfg f = (c, s)) = false := by
          simp only [decide_eq_false_iff_not, hch]
          intro hcs
          exact he ⟨(Prod.ext_iff.mp hcs).1.symm, (Prod.ext_iff.mp hcs).2.symm⟩
        simp only [hpc, Bool.false_eq_true, if_false]
        omega
    | retire st l1 l2 head f sz hclass hh1 hh2 hterm =>
      intro c s
      simp only
      rw [retirePacket_ro_terminal cfg st head f f.dest sz hterm]
      have hi := ih c s
      simp only [List.countP_append, List.countP_cons] at hi ⊢
      by_cases hq : cfg.request_class.getD f.cl (-1) < 0
      · rw [if_pos hq]
        have hch : charge cfg f = (f.cl, f.src) := by
          rw [charge, if_neg (not_le.mpr hq)]
        by_cases he : c = f.cl ∧ s = f.src
        · obtain ⟨he1, he2⟩ := he
          subst he1
          subst he2
          rw [upd2, if_pos ⟨rfl, rfl⟩]
          have hpc : decide (charge cfg f = (f.cl, f.src)) = true := by
            simp [hch]
          simp only [hpc, if_pos rfl, if_true] at hi
          omega
        · rw [upd2, if_neg he]
          have hpc : decide (charge cfg f = (c, s)) = false := by
            simp only [decide_eq_false_iff_not, hch]
            intro hcs
            exact he ⟨(Prod.ext_iff.mp hcs).1.symm,
              (Prod.ext_iff.mp hcs).2.symm⟩
          simp only [hpc, Bool.false_eq_true, if_false] at hi
          omega
      · rw [if_neg hq]
        have hq2 : 0 ≤ cfg.request_class.getD f.cl (-1) := le_of_not_lt hq
        have hch : charge cfg f
            = ((cfg.request_class.getD f.cl (-1)).toNat, f.dest) := by
          rw [charge, if_pos hq2]
        by_cases he : c = (cfg.request_class.getD f.cl (-1)).toNat ∧
            s = f.dest
        · obtain ⟨he1, he2⟩ := he
          subst he1
          subst he2
          rw [upd2, if_pos ⟨rfl, rfl⟩]
          have hpc : decide (charge cfg f
              = ((cfg.request_class.getD f.cl (-1)).toNat, f.dest))
              = true := by
            simp [hch]
          simp only [hpc, if_pos rfl, if_true] at hi
          omega
        · rw [upd2, if_neg he]
          have hpc : decide (charge cfg f = (c, s)) = false := by
            simp only [decide_eq_false_iff_not, hch]
            intro hcs
            exact he ⟨(Prod.ext_iff.mp hcs).1.symm,
              (Prod.ext_iff.mp hcs).2.symm⟩
          simp only [hpc, Bool.false_eq_true, if_false] at hi
          omega
    | retireRequest st l1 l2 head f f2 sz hclass hh1 hh2 hreq hf1 hf2 hf3 =>
      intro c s
      have hnoch := Hnochain f.cl hclass hreq
      have hchf : charge cfg f = (f.cl, f.src) := by
        rw [charge, if_neg (not_le.mpr hnoch)]
      have hrq2 : cfg.request_class.getD f2.cl (-1) = (f.cl : Int) := by
        rw [hf1]
        exact Hpair f.cl hclass hreq
      have hchf2 : charge cfg f2 = (f.cl, f.src) := by
        rw [charge, hrq2, if_pos (Int.natCast_nonneg f.cl)]
        simp [hf3]
      simp only
      rw [retirePacket_ro_request cfg st head f f.dest sz hreq]
      have hi := ih c s
      simp only [List.countP_append, List.countP_cons, List.countP_nil]
        at hi ⊢
      rw [hchf2, hchf] at *
      omega
    | frame st st2 fl hro =>
      intro c s
      simp only
      rw [hro]
      exact ih c s

/-- C7: in every reachable state of a simulated trial, no
outstanding-transaction counter is negative: every decrement performed by
`_RetirePacket` is matched by the earlier increment performed at issuance
for the same (class, source) slot, the counter being exactly the number of
in-flight transactions charged to the slot.  Uses the constructor
invariants of the reply-class map (`request_class[reply_class[c]] = c` and
no class both request and reply). -/
theorem requests_outstanding_nonneg (cfg : Config)
    (Hpair : ∀ c, c < cfg.classes → 0 ≤ cfg.reply_class.getD c (-1) →
      cfg.request_class.getD (cfg.reply_class.getD c (-1)).toNat (-1)
        = (c : Int))
    (Hnochain : ∀ c, c < cfg.classes → 0 ≤ cfg.reply_class.getD c (-1) →
      cfg.request_class.getD c (-1) < 0)
    (st : State) (fl : List Flit) (h : Reach cfg (st, fl)) (c s : Nat) :
    0 ≤ st.requests_outstanding c s ∧
    st.requests_outstanding c s
      = (fl.countP (fun f => decide (charge cfg f = (c, s))) : Int) := by
  have hc := reach_count cfg Hpair Hnochain (st, fl) h c s
  exact ⟨by rw [hc]; exact Int.natCast_nonneg _, hc⟩

theorem requests_outstanding_nonneg_witness :
    0 ≤ (injectStep cfgW issueTrueW stW 0 0).requests_outstanding 0 0 ∧
    (injectStep cfgW issueTrueW stW 0 0).requests_outstanding 0 0
      = (([reqTailW].countP
          (fun f => decide (charge cfgW f = (0, 0)))) : Int) := by
  have hpair : ∀ c, c < cfgW.classes →
      0 ≤ cfgW.reply_class.getD c (-1) →
      cfgW.request_class.getD (cfgW.reply_class.getD c (-1)).toNat (-1)
        = (c : Int) := by decide
  have hnoch : ∀ c, c < cfgW.classes →
      0 ≤ cfgW.reply_class.getD c (-1) →
      cfgW.request_class.getD c (-1) < 0 := by decide
  have h0 : Reach cfgW (stW, []) := Reach.init stW (fun _ _ => rfl)
  have hiss : (injectLoop (issueTrueW 0 0) stW.time (stW.qtime 0 0)).2.2
      = true := by
    rw [injectLoop]
    simp [issueTrueW, stW]
  have h1 : Reach cfgW (injectStep cfgW issueTrueW stW 0 0, [reqTailW]) :=
    Reach.step _ _ h0
      (TStep.issue stW [] issueTrueW 0 0 reqTailW (by decide) (by decide)
        rfl hiss rfl rfl)
  exact requests_outstanding_nonneg cfgW hpair hnoch _ _ h1 0 0

/-- A one-lane buffer (capacity 2) for witnesses. -/
def bufW : Buffer := ⟨[⟨2, []⟩]⟩

theorem buffer_vc_index_spec_witness :
    (bufW.addFlit 0 reqTailW).isSome = true ∧
    (bufW.addFlit 1 reqTailW).isSome = false := by
  have h0 := buffer_vc_index_spec bufW 0 reqTailW
  have h1 := buffer_vc_index_spec bufW 1 reqTailW
  refine ⟨h0.1.mpr (by decide), ?_⟩
  have hx : ¬ (bufW.addFlit 1 reqTailW).isSome = true := fun hx =>
    absurd (h1.1.mp hx) (by decide)
  exact Bool.eq_false_iff.mpr hx

theorem packetsOutstanding_spec_witness :
    packetsOutstanding cfgW false { stW with qdrained := fun _ _ => true }
      = false ∧
    ¬ packetsOutstanding cfgW false stW = false := by
  constructor
  · exact (packetsOutstanding_spec cfgW false _).mpr
      ⟨rfl, fun c hc hm s hs => rfl⟩
  · intro hf
    have h := (packetsOutstanding_spec cfgW false stW).mp hf
    have h2 := h.2 0 (by decide) (by decide) 0 (by decide)
    simp [stW] at h2

end BookSim
